import Mathlib

/-! GeminiChatbot: the chat widget of `src/GeminiChatbot.jsx`

A shallow embedding of the component's three state cells (`messages`, `input`,
`isLoading`), of `handleSubmit` (the synchronous part up to the `fetch`, and the
part that runs once the `fetch` has settled), of the request payload
`conversationHistory` and of the chain of four `String.prototype.replace` calls
that produces `formattedText`.

JavaScript strings are modelled by Lean strings, one `Char` per code point.  All
characters the code tests for (white space, line terminators, `*`, `•`, ASCII
digits, `.`) are in the basic multilingual plane, and the regular expressions are
used without the `u` flag, where `.` accepts either half of a surrogate pair, so
working on code points instead of UTF-16 code units does not change a result for
well-formed text.
-/

namespace GeminiChatbot

/-! ## Strings: `trim` and the regular-expression replacements -/

/-- ECMAScript `LineTerminator`: the characters the regular-expression atom `.`
(without the `s` flag) does not accept. -/
def isLineTerminator (c : Char) : Bool :=
  c = '\n' || c = '\r' || c = '\u2028' || c = '\u2029'

/-- ECMAScript `WhiteSpace` or `LineTerminator`: the characters that
`String.prototype.trim` strips. -/
def isTrimChar (c : Char) : Bool :=
  c = '\t' || c = '\n' || c = '\x0b' || c = '\x0c' || c = '\r' || c = ' ' ||
  c = '\u00a0' || c = '\u1680' || ('\u2000' ≤ c && c ≤ '\u200a') ||
  c = '\u2028' || c = '\u2029' || c = '\u202f' || c = '\u205f' ||
  c = '\u3000' || c = '\ufeff'

/-- `String.prototype.trim` on the list of characters. -/
def trimChars (l : List Char) : List Char :=
  ((l.dropWhile isTrimChar).reverse.dropWhile isTrimChar).reverse

/-- `String.prototype.trim`. -/
def trim (s : String) : String := ⟨trimChars s.data⟩

/-- One attempt of a regular expression at the start of the remaining text: on a
match, the text that replaces it and the number of characters it consumed. -/
abbrev Matcher := List Char → Option (List Char × Nat)

/-- `String.prototype.replace` with a global (`g`) regular expression none of
whose matches is empty.  The text is scanned from left to right; the first
argument counts the characters still covered by the previous match (they are
skipped: the next search starts at `lastIndex`, the end of that match).  Where
the expression matches, the replacement is emitted; where it does not, the
character is copied and the search moves on by one. -/
def replaceAllFrom (m : Matcher) : Nat → List Char → List Char
  | _, [] => []
  | k + 1, _ :: rest => replaceAllFrom m k rest
  | 0, c :: rest =>
    match m (c :: rest) with
    | some (out, len) => out ++ replaceAllFrom m (len - 1) rest
    | none => c :: replaceAllFrom m 0 rest

/-- `text.replace(re, replacement)` for a global `re`. -/
def replaceAll (m : Matcher) (text : List Char) : List Char :=
  replaceAllFrom m 0 text

/-- The line-break marker `<br />`. -/
def br : List Char := "<br />".data

/-- The opening markup `<strong>` of a bold span. -/
def strongOpen : List Char := "<strong>".data

/-- The closing markup `</strong>` of a bold span. -/
def strongClose : List Char := "</strong>".data

/-- `/\n/g` with replacement `'<br />'`. -/
def newlineMatch : Matcher
  | c :: _ => if c = '\n' then some (br, 1) else none
  | [] => none

/-- The lazy group `(.*?)` followed by `\*\*`: the shortest run of characters
other than line terminators after which `**` stands.  `none` when a line
terminator or the end of the text comes first. -/
def lazyGroup : List Char → Option (List Char)
  | [] => none
  | c :: rest =>
    if c = '*' ∧ rest.head? = some '*' then some []
    else if isLineTerminator c then none
    else (lazyGroup rest).map (fun g => c :: g)

/-- `/\*\*(.*?)\*\*/g` with replacement `'<strong>$1</strong>'`. -/
def boldMatch : Matcher
  | a :: b :: rest =>
    if a = '*' ∧ b = '*' then
      (lazyGroup rest).map
        (fun g => (strongOpen ++ g ++ strongClose, g.length + 4))
    else none
  | _ => none

/-- `/•/g` with replacement `'• '`. -/
def bulletMatch : Matcher
  | c :: _ => if c = '•' then some (['•', ' '], 1) else none
  | [] => none

/-- `/(\d+\.)/g` with replacement `'<br />$1 '`.  `\d+` is greedy and takes the
whole run of ASCII digits; giving digits back cannot help, since the character
after a shorter run is a digit and not `.`. -/
def numberedMatch : Matcher := fun l =>
  match l.takeWhile Char.isDigit, l.dropWhile Char.isDigit with
  | d :: ds, c :: _ =>
    if c = '.' then some (br ++ (d :: ds) ++ ['.', ' '], (d :: ds).length + 1)
    else none
  | _, _ => none

/-- The chain of replacements of `handleSubmit` that turns `text` into
`formattedText`, on the list of characters. -/
def formatChars (text : List Char) : List Char :=
  replaceAll numberedMatch
    (replaceAll bulletMatch
      (replaceAll boldMatch
        (replaceAll newlineMatch text)))

/-- The value of `formattedText` for the provider text `text`. -/
def formattedText (text : String) : String := ⟨formatChars text.data⟩

/-- Every bullet glyph `•` of the text is directly followed by a blank. -/
def bulletsSpaced : List Char → Bool
  | [] => true
  | c :: rest => (c != '•' || rest.head? == some ' ') && bulletsSpaced rest

/-! ## The component state -/

/-- An entry of `messages`.  `isFormatted` is `none` where the object literal has
no such property (the user message and the error message). -/
structure Message where
  role : String
  content : String
  isFormatted : Option Bool
  deriving DecidableEq, Repr

/-- Truthiness of `message.isFormatted` (an absent property reads `undefined`). -/
def Message.formatted (m : Message) : Bool := m.isFormatted == some true

/-- The three `useState` cells of the component. -/
structure State where
  messages : List Message
  input : String
  isLoading : Bool
  deriving DecidableEq, Repr

/-- An entry of a turn's `parts`. -/
structure Part where
  text : String
  deriving DecidableEq, Repr

/-- A turn of the request payload: `{ role, parts: [{ text }] }`. -/
structure Turn where
  role : String
  parts : List Part
  deriving DecidableEq, Repr

/-- The text of the first turn of every request (the template literal of
`conversationHistory`, line breaks and indentation included). -/
def systemInstruction : String :=
  "You are a logistics assistant. Provide concise, well-formatted responses with bullet points or numbered lists when appropriate. Keep responses brief and to the point. Format your response as follows:\n" ++
  "            - Use bullet points for lists\n" ++
  "            - Use bold for important information\n" ++
  "            - Keep paragraphs short (2-3 lines max)\n" ++
  "            - Use emojis for better visual organization\n" ++
  "            - Include relevant details only\n" ++
  "            - Use clear headings when needed\n" ++
  "            - Format numbers and prices clearly\n" ++
  "            - Use line breaks for better readability"

/-- The array `conversationHistory` built by `handleSubmit` from the `messages`
of the render it was created in and from `userMessage`. -/
def conversationHistory (messages : List Message) (userMessage : String) : List Turn :=
  [{ role := "user", parts := [{ text := systemInstruction }] }] ++
  messages.map (fun msg =>
    { role := if msg.role = "user" then "user" else "model",
      parts := [{ text := msg.content }] }) ++
  [{ role := "user", parts := [{ text := userMessage }] }]

/-- The body of the one `fetch` call: `{ contents: conversationHistory }`. -/
structure Request where
  contents : List Turn
  deriving DecidableEq, Repr

/-- The part of `handleSubmit` that runs before the `fetch` is awaited: the new
state, and the request that is sent (`none` when the handler returns early). -/
def handleSubmit (s : State) : State × Option Request :=
  if trim s.input = "" then (s, none)
  else
    let userMessage := trim s.input
    ({ messages := s.messages ++ [{ role := "user", content := userMessage, isFormatted := none }],
       input := "",
       isLoading := true },
     some { contents := conversationHistory s.messages userMessage })

/-- What the JSX of `chatbot-input-form` passes to the two controls of the form
in a render with state `s`. -/
structure FormControls where
  value : String
  inputDisabled : Bool
  buttonDisabled : Bool
  deriving DecidableEq, Repr

/-- The render of `chatbot-input-form`: `value={input}`, and `disabled={isLoading}`
on the text field and on the Send button. -/
def chatbotInputForm (s : State) : FormControls :=
  { value := s.input, inputDisabled := s.isLoading, buttonDisabled := s.isLoading }

/-- A submit made by the user through the rendered form.  The browser raises the
`submit` event, which runs `onSubmit={handleSubmit}`, from a click on the Send
button or from Enter in the text field; a disabled button takes no click, a
disabled field takes no key, and implicit submission does nothing when the
default button is disabled. -/
def formSubmit (s : State) : State × Option Request :=
  if (chatbotInputForm s).buttonDisabled then (s, none) else handleSubmit s

/-! ## The response -/

/-- A JavaScript value as `response.json()` yields it, and `undefined`, which
reading a missing property yields.  Numbers are restricted to integers (only
whether a number is zero is ever looked at).  An object is the list of its own
properties. -/
inductive JsVal where
  | undefined
  | null
  | bool (b : Bool)
  | num (n : Int)
  | str (s : String)
  | arr (items : List JsVal)
  | obj (fields : List (String × JsVal))

/-- A thrown `Error`; the `catch` block reads only its `message`. -/
structure JsError where
  message : String
  deriving DecidableEq, Repr

/-- The wording of the `TypeError`s the JavaScript engine itself throws, which
ECMAScript leaves to the engine. -/
structure Engine where
  /-- Reading property `key` of `undefined` (`ofNull = false`) or of `null`. -/
  cannotRead : (ofNull : Bool) → (key : String) → String
  /-- Calling a value that is not a function; the argument is the callee as written. -/
  notAFunction : (callee : String) → String

/-- The wording of V8 (Chrome, Node.js). -/
def v8 : Engine where
  cannotRead ofNull key :=
    "Cannot read properties of " ++ (if ofNull then "null" else "undefined") ++
      " (reading \x27" ++ key ++ "\x27)"
  notAFunction callee := callee ++ " is not a function"

/-- JavaScript `ToBoolean`. -/
def truthy : JsVal → Bool
  | .undefined => false
  | .null => false
  | .bool b => b
  | .num n => n ≠ 0
  | .str s => s ≠ ""
  | .arr _ => true
  | .obj _ => true

/-- The property read `v.key` (or `v[0]` for `key = "0"`), for the keys
`handleSubmit` reads: `candidates`, `0`, `content`, `parts`, `text`.  None of
them is on a built-in prototype, so a value without such an own property reads
`undefined`; reading from `undefined` or `null` throws. -/
def getProp (eng : Engine) (v : JsVal) (key : String) : Except JsError JsVal :=
  match v with
  | .undefined => .error { message := eng.cannotRead false key }
  | .null => .error { message := eng.cannotRead true key }
  | .obj fields => .ok ((fields.lookup key).getD .undefined)
  | .arr items => .ok (if key = "0" then items.head?.getD .undefined else .undefined)
  | .str s =>
    .ok (if key = "0" then
      match s.data with
      | c :: _ => .str (String.singleton c)
      | [] => .undefined
    else .undefined)
  | .bool _ => .ok .undefined
  | .num _ => .ok .undefined

/-- The method call `text.replace(...)...` that computes `formattedText`: the
chain of replacements when `text` is a string, a `TypeError` otherwise. -/
def callReplace (eng : Engine) (text : JsVal) : Except JsError String :=
  match text with
  | .str t => .ok (formattedText t)
  | .undefined => .error { message := eng.cannotRead false "replace" }
  | .null => .error { message := eng.cannotRead true "replace" }
  | _ => .error { message := eng.notAFunction "text.replace" }

/-- How the awaited `fetch` settles: the promise rejects (no response at all), or
a response arrives with a status code and a body that `response.json()` parses
or rejects. -/
inductive FetchOutcome where
  | rejected (error : JsError)
  | response (status : Nat) (json : Except JsError JsVal)

/-- Fetch `response.ok`: the status is in the range 200 to 299. -/
def responseOk (status : Nat) : Bool := 200 ≤ status && status ≤ 299

/-- The error thrown by the `else` branch of the shape test. -/
def invalidFormat : JsError := { message := "Invalid response format from API" }

/-- The `try` block of `handleSubmit` from the awaited `fetch` on: the value of
`formattedText`, or the error that is thrown. -/
def tryBlock (eng : Engine) : FetchOutcome → Except JsError String
  | .rejected error => .error error
  | .response status json =>
    if ¬ responseOk status then
      .error { message := "HTTP error! status: " ++ toString status }
    else do
      let data ← json
      let candidates ← getProp eng data "candidates"
      if ¬ truthy candidates then .error invalidFormat else
      let candidate ← getProp eng candidates "0"
      if ¬ truthy candidate then .error invalidFormat else
      let content ← getProp eng candidate "content"
      if ¬ truthy content then .error invalidFormat else
      let parts ← getProp eng content "parts"
      let part ← getProp eng parts "0"
      let text ← getProp eng part "text"
      callReplace eng text

/-- The `setMessages` call at the end of the `try` block. -/
def appendFormatted (formattedText : String) (s : State) : State :=
  { s with messages := s.messages ++
      [{ role := "assistant", content := formattedText, isFormatted := some true }] }

/-- The template literal of the `catch` block, for `error.message = m`. -/
def errorContent (m : String) : String :=
  "Sorry, I encountered an error. Please try again. Error: " ++ m

/-- The `catch` block. -/
def catchBlock (error : JsError) (s : State) : State :=
  { s with messages := s.messages ++
      [{ role := "assistant", content := errorContent error.message, isFormatted := none }] }

/-- The `finally` block. -/
def finallyBlock (s : State) : State := { s with isLoading := false }

/-- The part of `handleSubmit` that runs once the `fetch` has settled, applied to
the state of that moment (each `setMessages` call takes an updater function). -/
def handleSubmitResume (eng : Engine) (outcome : FetchOutcome) (s : State) : State :=
  finallyBlock
    (match tryBlock eng outcome with
     | .ok formattedText => appendFormatted formattedText s
     | .error error => catchBlock error s)

/-- The text at `candidates[0].content.parts[0].text` of a response body of the
expected shape `{ candidates: [ { content: { parts: [ { text } ] } } ] }`;
`none` for a body of another shape. -/
def responseText (data : JsVal) : Option String :=
  match data with
  | .obj fields =>
    match fields.lookup "candidates" with
    | some (.arr (.obj candidate :: _)) =>
      match candidate.lookup "content" with
      | some (.obj content) =>
        match content.lookup "parts" with
        | some (.arr (.obj part :: _)) =>
          match part.lookup "text" with
          | some (.str t) => some t
          | _ => none
        | _ => none
      | _ => none
    | _ => none
  | _ => none

/-! ## Submitting -/

/-- C1, as the claim states it, fails: with `isLoading = true` and the draft
`hi`, `handleSubmit` appends a message and issues a request. -/
theorem handleSubmit_loading_not_noop :
    (handleSubmit { messages := [], input := "hi", isLoading := true }).1.messages
      = [{ role := "user", content := "hi", isFormatted := none }] ∧
    (handleSubmit { messages := [], input := "hi", isLoading := true }).1.messages ≠ [] ∧
    (handleSubmit { messages := [], input := "hi", isLoading := true }).2 ≠ none := by
  decide

/-- C1, amended: while `isLoading` is true the form renders the text field and
the Send button disabled, and a submit made through the form changes nothing and
issues no request; `handleSubmit` itself does not look at `isLoading` and, called
with a draft that is not blank, appends the user message and issues the request
as it does when idle. -/
theorem formSubmit_loading_noop (s : State) (h : s.isLoading = true) :
    (chatbotInputForm s).inputDisabled = true ∧
    (chatbotInputForm s).buttonDisabled = true ∧
    formSubmit s = (s, none) ∧
    (trim s.input ≠ "" →
      handleSubmit s =
        ({ messages := s.messages ++
             [{ role := "user", content := trim s.input, isFormatted := none }],
           input := "", isLoading := true },
         some { contents := conversationHistory s.messages (trim s.input) })) := by
  refine ⟨h, h, ?_, ?_⟩
  · simp [formSubmit, chatbotInputForm, h]
  · intro hne
    simp [handleSubmit, hne]

theorem formSubmit_loading_noop_witness :
    (State.mk [] "hi" true).isLoading = true ∧
    formSubmit (State.mk [] "hi" true) = (State.mk [] "hi" true, none) :=
  ⟨rfl, (formSubmit_loading_noop (State.mk [] "hi" true) rfl).2.2.1⟩

/-- C2: for a draft `t` that is empty after trimming, `handleSubmit` returns at
once: the state (`messages`, `input`, `isLoading`) is unchanged and no request
is issued. -/
theorem handleSubmit_blank_noop (s : State) (t : String) (h : trim t = "") :
    handleSubmit { s with input := t } = ({ s with input := t }, none) ∧
    (handleSubmit { s with input := t }).1.messages = s.messages ∧
    (handleSubmit { s with input := t }).1.isLoading = s.isLoading := by
  simp [handleSubmit, h]

theorem handleSubmit_blank_noop_witness :
    trim " \t \n" = "" ∧
    handleSubmit { (State.mk [⟨"user", "a", none⟩] "" false) with input := " \t \n" }
      = ({ (State.mk [⟨"user", "a", none⟩] "" false) with input := " \t \n" }, none) :=
  ⟨by decide, (handleSubmit_blank_noop (State.mk [⟨"user", "a", none⟩] "" false) " \t \n"
    (by decide)).1⟩

/-- C3, as the claim states it, fails: for the draft ` hi ` (with a blank on
either side) the content of the appended message is `hi`, not the draft. -/
theorem handleSubmit_content_not_draft :
    (State.mk [] " hi " false).isLoading = false ∧
    trim (State.mk [] " hi " false).input ≠ "" ∧
    (handleSubmit (State.mk [] " hi " false)).1.messages
      = [{ role := "user", content := "hi", isFormatted := none }] ∧
    (handleSubmit (State.mk [] " hi " false)).1.messages
      ≠ [{ role := "user", content := " hi ", isFormatted := none }] := by
  decide

/-- C3, amended: in an idle state, for a draft that is not empty after trimming,
`handleSubmit` appends exactly one message to the end of `messages`, with role
`user`, content the trimmed draft and no formatted mark, keeps the earlier
messages, sets `input` to the empty string and `isLoading` to true, and issues
the request. -/
theorem handleSubmit_appends_trimmed (s : State) (hidle : s.isLoading = false)
    (h : trim s.input ≠ "") :
    (handleSubmit s).1 =
      { messages := s.messages ++
          [{ role := "user", content := trim s.input, isFormatted := none }],
        input := "", isLoading := true } ∧
    Message.formatted { role := "user", content := trim s.input, isFormatted := none } = false ∧
    (handleSubmit s).1.messages.length = s.messages.length + 1 ∧
    (handleSubmit s).2 = some { contents := conversationHistory s.messages (trim s.input) } := by
  have _ := hidle
  simp [handleSubmit, h, Message.formatted]

theorem handleSubmit_appends_trimmed_witness :
    (State.mk [] "hi" false).isLoading = false ∧
    trim (State.mk [] "hi" false).input ≠ "" ∧
    (handleSubmit (State.mk [] "hi" false)).1 =
      { messages := [] ++ [{ role := "user", content := trim "hi", isFormatted := none }],
        input := "", isLoading := true } :=
  ⟨rfl, by decide, (handleSubmit_appends_trimmed (State.mk [] "hi" false) rfl (by decide)).1⟩

/-! ## The request payload -/

/-- C7: for every history of `n` messages (the empty one included) and every
user text `u`, the payload has exactly `n + 2` turns: turn 0 is the system
instruction with role `user`; for each `i < n`, turn `i + 1` has the text of
`history[i]` and the role `user` when that message has role `user`, `model`
otherwise; the last turn, at index `n + 1`, has role `user` and text `u`. -/
theorem conversationHistory_turns (history : List Message) (u : String) :
    (conversationHistory history u).length = history.length + 2 ∧
    (conversationHistory history u)[0]? =
      some { role := "user", parts := [{ text := systemInstruction }] } ∧
    (∀ (i : Nat) (hi : i < history.length),
      (conversationHistory history u)[i + 1]? =
        some { role := if history[i].role = "user" then "user" else "model",
               parts := [{ text := history[i].content }] }) ∧
    (conversationHistory history u)[history.length + 1]? =
      some { role := "user", parts := [{ text := u }] } := by
  refine ⟨?_, ?_, ?_, ?_⟩
  · simp [conversationHistory]
  · simp [conversationHistory]
  · intro i hi
    simp [conversationHistory, List.getElem?_append, hi]
  · simp [conversationHistory, List.getElem?_append]

theorem conversationHistory_turns_witness :
    1 < [Message.mk "user" "a" none, Message.mk "assistant" "b" (some true)].length ∧
    (conversationHistory [Message.mk "user" "a" none, Message.mk "assistant" "b" (some true)]
      "c")[1 + 1]? = some { role := "model", parts := [{ text := "b" }] } ∧
    (conversationHistory [] "c").length = ([] : List Message).length + 2 ∧
    (conversationHistory [] "c")[([] : List Message).length + 1]? =
      some { role := "user", parts := [{ text := "c" }] } :=
  ⟨by decide,
   (conversationHistory_turns
      [Message.mk "user" "a" none, Message.mk "assistant" "b" (some true)] "c").2.2.1 1
      (by decide),
   (conversationHistory_turns [] "c").1,
   (conversationHistory_turns [] "c").2.2.2⟩

/-! ## Settling the request -/

/-- What `handleSubmitResume` does when the `try` block throws. -/
theorem handleSubmitResume_of_error (eng : Engine) (outcome : FetchOutcome) (error : JsError)
    (s : State) (h : tryBlock eng outcome = .error error) :
    handleSubmitResume eng outcome s = finallyBlock (catchBlock error s) := by
  simp [handleSubmitResume, h]

/-- What `handleSubmitResume` does when the `try` block computes `formattedText`. -/
theorem handleSubmitResume_of_ok (eng : Engine) (outcome : FetchOutcome) (text : String)
    (s : State) (h : tryBlock eng outcome = .ok text) :
    handleSubmitResume eng outcome s = finallyBlock (appendFormatted text s) := by
  simp [handleSubmitResume, h]

/-- The `try` block on a response whose status is not in the 200 range. -/
theorem tryBlock_not_ok (eng : Engine) (status : Nat) (json : Except JsError JsVal)
    (h : responseOk status = false) :
    tryBlock eng (.response status json) =
      .error { message := "HTTP error! status: " ++ toString status } := by
  simp [tryBlock, h]

/-- The `try` block on a response of the expected shape. -/
theorem tryBlock_of_responseText (eng : Engine) (status : Nat) (data : JsVal) (t : String)
    (hok : responseOk status = true) (ht : responseText data = some t) :
    tryBlock eng (.response status (.ok data)) = .ok (formattedText t) := by
  unfold responseText at ht
  split at ht
  · rename_i fields
    split at ht
    · rename_i candidate rest hc
      split at ht
      · rename_i content hcontent
        split at ht
        · rename_i part prest hparts
          split at ht
          · rename_i t0 htext
            cases ht
            simp [tryBlock, hok, getProp, hc, hcontent, hparts, htext, truthy, callReplace,
              bind, Except.bind]
          · cases ht
        · cases ht
      · cases ht
    · cases ht
  · cases ht

/-- C5: for an error with message `m` and every state, the `catch` and `finally`
blocks append exactly one message, with role `assistant`, content
`Sorry, I encountered an error. Please try again. Error: ` followed by `m` and no
formatted mark, keep the earlier messages and set `isLoading` to false; a
response with a status `c` outside 200 to 299 makes the `try` block throw the
message `HTTP error! status: ` followed by `c`, whatever the body. -/
theorem catch_appends_error_message (eng : Engine) (s : State) (m : String) (c : Nat)
    (json : Except JsError JsVal) (hc : responseOk c = false) :
    finallyBlock (catchBlock { message := m } s) =
      { messages := s.messages ++
          [{ role := "assistant",
             content := "Sorry, I encountered an error. Please try again. Error: " ++ m,
             isFormatted := none }],
        input := s.input, isLoading := false } ∧
    Message.formatted
      { role := "assistant",
        content := "Sorry, I encountered an error. Please try again. Error: " ++ m,
        isFormatted := none } = false ∧
    handleSubmitResume eng (.rejected { message := m }) s =
      finallyBlock (catchBlock { message := m } s) ∧
    handleSubmitResume eng (.response c json) s =
      { messages := s.messages ++
          [{ role := "assistant",
             content := "Sorry, I encountered an error. Please try again. Error: " ++
               ("HTTP error! status: " ++ toString c),
             isFormatted := none }],
        input := s.input, isLoading := false } := by
  refine ⟨rfl, rfl, rfl, ?_⟩
  rw [handleSubmitResume_of_error eng _ _ s (tryBlock_not_ok eng c json hc)]
  rfl

theorem catch_appends_error_message_witness :
    responseOk 500 = false ∧
    handleSubmitResume v8 (.response 500 (.ok .null)) (State.mk [] "" true) =
      { messages := [] ++
          [{ role := "assistant",
             content := "Sorry, I encountered an error. Please try again. Error: " ++
               ("HTTP error! status: " ++ toString 500),
             isFormatted := none }],
        input := "", isLoading := false } ∧
    "Sorry, I encountered an error. Please try again. Error: " ++
        ("HTTP error! status: " ++ toString 500) =
      "Sorry, I encountered an error. Please try again. Error: HTTP error! status: 500" :=
  ⟨by decide,
   (catch_appends_error_message v8 (State.mk [] "" true) "" 500 (.ok .null) (by decide)).2.2.2,
   by decide⟩

/-- C4 fails on the code: a 200 response whose candidate has a `content` without
`parts` passes the shape test, and reading `parts[0]` throws the engine's
`TypeError`; the message shown carries that error's wording (here V8's), not
`Invalid response format from API`. -/
theorem content_without_parts_not_invalid_format (s : State) :
    responseOk 200 = true ∧
    responseText (.obj [("candidates", .arr [.obj [("content", .obj [])]])]) = none ∧
    (∀ eng : Engine,
      handleSubmitResume eng
          (.response 200 (.ok (.obj [("candidates", .arr [.obj [("content", .obj [])]])]))) s =
        finallyBlock (catchBlock { message := eng.cannotRead false "0" } s)) ∧
    errorContent (v8.cannotRead false "0") =
      "Sorry, I encountered an error. Please try again. Error: Cannot read properties of undefined (reading \x270\x27)" ∧
    errorContent (v8.cannotRead false "0") ≠
      "Sorry, I encountered an error. Please try again. Error: Invalid response format from API" := by
  refine ⟨by decide, rfl, fun eng => rfl, by decide, by decide⟩

/-- The cases of C4 that the shape test does catch: a body without `candidates`,
with an empty `candidates` array, or whose first candidate has no `content`,
gives the message `Invalid response format from API`. -/
theorem shape_test_failures (eng : Engine) (s : State) (fields : List (String × JsVal))
    (data : JsVal)
    (h : data = .obj [] ∨ data = .obj [("candidates", .arr [])] ∨
      data = .obj [("candidates", .arr [.obj fields])] ∧ fields.lookup "content" = none) :
    handleSubmitResume eng (.response 200 (.ok data)) s =
      finallyBlock (catchBlock { message := "Invalid response format from API" } s) := by
  rcases h with h | h | ⟨h, hf⟩
  · subst h; rfl
  · subst h; rfl
  · subst h
    apply handleSubmitResume_of_error
    simp [tryBlock, responseOk, getProp, truthy, hf, bind, Except.bind, invalidFormat]

/-- C6: for a response with a status in 200 to 299 and a body of the expected
shape with text `t`, `handleSubmitResume` appends exactly one message, with role
`assistant`, the formatted mark and content `formattedText t`, and sets
`isLoading` to false; following an accepted `handleSubmit` the two steps add
exactly two messages, the user message and then the assistant message; and
`formattedText` of `**Hi** there` contains `<strong>Hi</strong>`. -/
theorem success_appends_formatted (eng : Engine) (s : State) (status : Nat) (data : JsVal)
    (t : String) (hok : responseOk status = true) (ht : responseText data = some t)
    (hacc : trim s.input ≠ "") :
    (∀ s0 : State, handleSubmitResume eng (.response status (.ok data)) s0 =
      { messages := s0.messages ++
          [{ role := "assistant", content := formattedText t, isFormatted := some true }],
        input := s0.input, isLoading := false }) ∧
    Message.formatted
      { role := "assistant", content := formattedText t, isFormatted := some true } = true ∧
    handleSubmitResume eng (.response status (.ok data)) (handleSubmit s).1 =
      { messages := s.messages ++
          [{ role := "user", content := trim s.input, isFormatted := none },
           { role := "assistant", content := formattedText t, isFormatted := some true }],
        input := "", isLoading := false } ∧
    (handleSubmitResume eng (.response status (.ok data)) (handleSubmit s).1).messages.length =
      s.messages.length + 2 ∧
    "<strong>Hi</strong>".data <:+: (formattedText "**Hi** there").data := by
  have hres : ∀ s0 : State, handleSubmitResume eng (.response status (.ok data)) s0 =
      { messages := s0.messages ++
          [{ role := "assistant", content := formattedText t, isFormatted := some true }],
        input := s0.input, isLoading := false } := by
    intro s0
    rw [handleSubmitResume_of_ok eng _ _ s0 (tryBlock_of_responseText eng status data t hok ht)]
    rfl
  refine ⟨hres, rfl, ?_, ?_, ⟨[], " there".data, by decide⟩⟩
  · rw [hres]
    simp [handleSubmit, hacc]
  · rw [hres]
    simp [handleSubmit, hacc]

theorem success_appends_formatted_witness :
    responseOk 200 = true ∧
    responseText (.obj [("candidates", .arr [.obj [("content",
      .obj [("parts", .arr [.obj [("text", .str "**Hi** there")]])])]])]) = some "**Hi** there" ∧
    trim (State.mk [] "hi" false).input ≠ "" ∧
    handleSubmitResume v8 (.response 200 (.ok (.obj [("candidates", .arr [.obj [("content",
        .obj [("parts", .arr [.obj [("text", .str "**Hi** there")]])])]])])))
        (handleSubmit (State.mk [] "hi" false)).1 =
      { messages := [] ++
          [{ role := "user", content := trim "hi", isFormatted := none },
           { role := "assistant", content := formattedText "**Hi** there",
             isFormatted := some true }],
        input := "", isLoading := false } :=
  ⟨by decide, rfl, by decide,
   (success_appends_formatted v8 (State.mk [] "hi" false) 200
      (.obj [("candidates", .arr [.obj [("content",
        .obj [("parts", .arr [.obj [("text", .str "**Hi** there")]])])]])])
      "**Hi** there" (by decide) rfl (by decide)).2.2.1⟩

/-! ## The replacements: general facts -/

theorem replaceAllFrom_nil (m : Matcher) (k : Nat) : replaceAllFrom m k [] = [] := by
  cases k <;> rfl

theorem replaceAllFrom_succ (m : Matcher) (k : Nat) (c : Char) (rest : List Char) :
    replaceAllFrom m (k + 1) (c :: rest) = replaceAllFrom m k rest := rfl

theorem replaceAllFrom_none (m : Matcher) (c : Char) (rest : List Char)
    (h : m (c :: rest) = none) :
    replaceAllFrom m 0 (c :: rest) = c :: replaceAllFrom m 0 rest := by
  simp [replaceAllFrom, h]

theorem replaceAllFrom_some (m : Matcher) (c : Char) (rest out : List Char) (len : Nat)
    (h : m (c :: rest) = some (out, len)) :
    replaceAllFrom m 0 (c :: rest) = out ++ replaceAllFrom m (len - 1) rest := by
  simp [replaceAllFrom, h]

/-- Characters at which the expression cannot start a match are copied. -/
theorem replaceAllFrom_copy (m : Matcher) (a b : List Char)
    (h : ∀ c ∈ a, ∀ t, m (c :: t) = none) :
    replaceAllFrom m 0 (a ++ b) = a ++ replaceAllFrom m 0 b := by
  induction a with
  | nil => rfl
  | cons c a ih =>
    have hc : m (c :: (a ++ b)) = none := h c (List.mem_cons_self c a) _
    rw [List.cons_append, replaceAllFrom_none m c _ hc,
      ih (fun d hd t => h d (List.mem_cons_of_mem c hd) t), List.cons_append]

/-- The characters covered by a match are skipped. -/
theorem replaceAllFrom_skip (m : Matcher) (a b : List Char) :
    replaceAllFrom m a.length (a ++ b) = replaceAllFrom m 0 b := by
  induction a with
  | nil => rfl
  | cons c a ih => simpa [replaceAllFrom_succ] using ih

/-- A match at the start of the text is replaced, and the search goes on behind it. -/
theorem replaceAllFrom_match (m : Matcher) (c : Char) (a b out : List Char)
    (h : m (c :: (a ++ b)) = some (out, a.length + 1)) :
    replaceAllFrom m 0 (c :: (a ++ b)) = out ++ replaceAllFrom m 0 b := by
  rw [replaceAllFrom_some m c _ out _ h]
  simp [replaceAllFrom_skip]

/-- A property of characters that the text has and every replacement keeps is a
property of the result. -/
theorem replaceAllFrom_forall (m : Matcher) (P : Char → Prop)
    (hm : ∀ l out len, (∀ c ∈ l, P c) → m l = some (out, len) → ∀ c ∈ out, P c)
    (k : Nat) (l : List Char) (hl : ∀ c ∈ l, P c) :
    ∀ c ∈ replaceAllFrom m k l, P c := by
  induction l generalizing k with
  | nil => simp [replaceAllFrom_nil]
  | cons d rest ih =>
    have hrest : ∀ c ∈ rest, P c := fun c hc => hl c (List.mem_cons_of_mem d hc)
    cases k with
    | succ k => simpa [replaceAllFrom_succ] using ih k hrest
    | zero =>
      cases hmd : m (d :: rest) with
      | none =>
        rw [replaceAllFrom_none m d rest hmd]
        intro c hc
        rcases List.mem_cons.1 hc with h | h
        · exact h ▸ hl d (List.mem_cons_self d rest)
        · exact ih 0 hrest c h
      | some r =>
        obtain ⟨out, len⟩ := r
        rw [replaceAllFrom_some m d rest out len hmd]
        intro c hc
        rcases List.mem_append.1 hc with h | h
        · exact hm _ out len hl hmd c h
        · exact ih _ hrest c h

/-! ## The four expressions -/

theorem newlineMatch_none (c : Char) (t : List Char) (h : c ≠ '\n') :
    newlineMatch (c :: t) = none := by
  simp [newlineMatch, h]

theorem boldMatch_none (c : Char) (t : List Char) (h : c ≠ '*') :
    boldMatch (c :: t) = none := by
  cases t with
  | nil => rfl
  | cons b rest => simp [boldMatch, h]

theorem bulletMatch_none (c : Char) (t : List Char) (h : c ≠ '•') :
    bulletMatch (c :: t) = none := by
  simp [bulletMatch, h]

theorem numberedMatch_none (c : Char) (t : List Char) (h : c.isDigit = false) :
    numberedMatch (c :: t) = none := by
  simp [numberedMatch, List.takeWhile_cons, h]

/-- The group found by `lazyGroup` is the text up to the first `**`, and holds
no line terminator. -/
theorem lazyGroup_some (l g : List Char) (h : lazyGroup l = some g) :
    (∃ t, l = g ++ '*' :: '*' :: t) ∧ ∀ c ∈ g, isLineTerminator c = false := by
  induction l generalizing g with
  | nil => simp [lazyGroup] at h
  | cons c rest ih =>
    unfold lazyGroup at h
    split at h
    · rename_i hstar
      cases h
      obtain ⟨hc, hr⟩ := hstar
      cases rest with
      | nil => simp at hr
      | cons b t =>
        simp at hr
        exact ⟨⟨t, by simp [hc, hr]⟩, by simp⟩
    · split at h
      · cases h
      · rename_i hlt
        cases hg : lazyGroup rest with
        | none => simp [hg] at h
        | some g0 =>
          simp [hg] at h
          subst h
          obtain ⟨⟨t, ht⟩, hall⟩ := ih g0 hg
          refine ⟨⟨t, by simp [ht]⟩, ?_⟩
          intro d hd
          rcases List.mem_cons.1 hd with h1 | h1
          · subst h1; simpa using hlt
          · exact hall d h1

/-- A text without `*` and without line terminator, followed by `**`, is the group. -/
theorem lazyGroup_append (X t : List Char)
    (hX : ∀ c ∈ X, isLineTerminator c = false ∧ c ≠ '*') :
    lazyGroup (X ++ '*' :: '*' :: t) = some X := by
  induction X with
  | nil => simp [lazyGroup]
  | cons c X ih =>
    have hc := hX c (List.mem_cons_self c X)
    have ih1 := ih (fun d hd => hX d (List.mem_cons_of_mem c hd))
    simp [lazyGroup, hc.1, hc.2, ih1]

/-- What `numberedMatch` returns on a match: the digits, the dot and a blank
behind the line-break marker. -/
theorem numberedMatch_some (l out : List Char) (len : Nat)
    (h : numberedMatch l = some (out, len)) :
    ∃ ds t, l = ds ++ '.' :: t ∧ ds ≠ [] ∧ (∀ c ∈ ds, c.isDigit = true) ∧
      out = br ++ ds ++ ['.', ' '] ∧ len = ds.length + 1 := by
  unfold numberedMatch at h
  split at h
  · rename_i d ds c t htake hdrop
    split at h
    · rename_i hc
      cases h
      refine ⟨d :: ds, t, ?_, by simp, ?_, rfl, rfl⟩
      · have := List.takeWhile_append_dropWhile Char.isDigit l
        rw [htake, hdrop, hc] at this
        exact this.symm
      · intro x hx
        rw [← htake] at hx
        exact (List.mem_takeWhile_imp hx)
    · cases h
  · cases h

/-- A non-empty run of digits followed by a dot is a match. -/
theorem numberedMatch_append (D t : List Char) (hne : D ≠ [])
    (hD : ∀ c ∈ D, c.isDigit = true) :
    numberedMatch (D ++ '.' :: t) = some (br ++ D ++ ['.', ' '], D.length + 1) := by
  have htake : (D ++ '.' :: t).takeWhile Char.isDigit = D := by
    rw [List.takeWhile_append_of_pos hD]
    simp [List.takeWhile_cons, show Char.isDigit '.' = false by decide]
  have hdrop : (D ++ '.' :: t).dropWhile Char.isDigit = '.' :: t := by
    rw [List.dropWhile_append_of_pos hD]
    simp [List.dropWhile_cons, show Char.isDigit '.' = false by decide]
  unfold numberedMatch
  rw [htake, hdrop]
  cases D with
  | nil => exact absurd rfl hne
  | cons d ds => simp

/-- What `boldMatch` returns on a match. -/
theorem boldMatch_some (l out : List Char) (len : Nat) (h : boldMatch l = some (out, len)) :
    ∃ g t, l = '*' :: '*' :: (g ++ '*' :: '*' :: t) ∧
      (∀ c ∈ g, isLineTerminator c = false) ∧
      out = strongOpen ++ g ++ strongClose ∧ len = g.length + 4 := by
  unfold boldMatch at h
  split at h
  · rename_i a b rest
    split at h
    · rename_i hab
      cases hg : lazyGroup rest with
      | none => simp [hg] at h
      | some g =>
        simp [hg] at h
        obtain ⟨⟨t, ht⟩, hall⟩ := lazyGroup_some rest g hg
        exact ⟨g, t, by rw [hab.1, hab.2, ht], hall, h.1.symm, h.2.symm⟩
    · cases h
  · cases h

/-- What `bulletMatch` returns on a match. -/
theorem bulletMatch_some (l out : List Char) (len : Nat) (h : bulletMatch l = some (out, len)) :
    out = ['•', ' '] ∧ len = 1 := by
  unfold bulletMatch at h
  split at h
  · split at h
    · cases h; exact ⟨rfl, rfl⟩
    · cases h
  · cases h

/-! ## No newline is left -/

/-- The first replacement leaves no newline, whatever the text. -/
theorem replaceAllFrom_newlineMatch (k : Nat) (l : List Char) :
    ∀ c ∈ replaceAllFrom newlineMatch k l, c ≠ '\n' := by
  induction l generalizing k with
  | nil => simp [replaceAllFrom_nil]
  | cons d rest ih =>
    cases k with
    | succ k => simpa [replaceAllFrom_succ] using ih k
    | zero =>
      by_cases hd : d = '\n'
      · have hm : newlineMatch (d :: rest) = some (br, 1) := by simp [newlineMatch, hd]
        rw [replaceAllFrom_some _ d rest br 1 hm]
        intro c hc
        rcases List.mem_append.1 hc with h | h
        · exact (show ∀ x ∈ br, x ≠ '\n' by decide) c h
        · exact ih _ c h
      · rw [replaceAllFrom_none _ d rest (newlineMatch_none d rest hd)]
        intro c hc
        rcases List.mem_cons.1 hc with h | h
        · exact h ▸ hd
        · exact ih 0 c h

/-- The first replacement puts `<br />` in the place of each newline and keeps
every other character. -/
theorem replaceAll_newlineMatch (l : List Char) :
    replaceAll newlineMatch l = l.flatMap (fun c => if c = '\n' then br else [c]) := by
  unfold replaceAll
  induction l with
  | nil => rfl
  | cons d rest ih =>
    by_cases hd : d = '\n'
    · have hm : newlineMatch (d :: rest) = some (br, 1) := by simp [newlineMatch, hd]
      rw [replaceAllFrom_some _ d rest br 1 hm]
      simp [ih, hd]
    · rw [replaceAllFrom_none _ d rest (newlineMatch_none d rest hd)]
      simp [ih, hd]

/-- The bold replacement brings in no newline. -/
theorem replaceAll_boldMatch_no_newline (l : List Char) (hl : ∀ c ∈ l, c ≠ '\n') :
    ∀ c ∈ replaceAll boldMatch l, c ≠ '\n' := by
  apply replaceAllFrom_forall boldMatch (fun c => c ≠ '\n') _ 0 l hl
  intro t out len ht hm c hc
  obtain ⟨g, r, hteq, -, hout, -⟩ := boldMatch_some t out len hm
  subst hout
  simp only [List.mem_append] at hc
  rcases hc with (h | h) | h
  · exact (show ∀ x ∈ strongOpen, x ≠ '\n' by decide) c h
  · exact ht c (by rw [hteq]; simp [h])
  · exact (show ∀ x ∈ strongClose, x ≠ '\n' by decide) c h

/-- The bullet replacement brings in no newline. -/
theorem replaceAll_bulletMatch_no_newline (l : List Char) (hl : ∀ c ∈ l, c ≠ '\n') :
    ∀ c ∈ replaceAll bulletMatch l, c ≠ '\n' := by
  apply replaceAllFrom_forall bulletMatch (fun c => c ≠ '\n') _ 0 l hl
  intro t out len _ hm c hc
  obtain ⟨hout, -⟩ := bulletMatch_some t out len hm
  subst hout
  exact (show ∀ x ∈ ['•', ' '], x ≠ '\n' by decide) c hc

/-- The numbered-list replacement brings in no newline. -/
theorem replaceAll_numberedMatch_no_newline (l : List Char) (hl : ∀ c ∈ l, c ≠ '\n') :
    ∀ c ∈ replaceAll numberedMatch l, c ≠ '\n' := by
  apply replaceAllFrom_forall numberedMatch (fun c => c ≠ '\n') _ 0 l hl
  intro t out len ht hm c hc
  obtain ⟨ds, r, hteq, -, -, hout, -⟩ := numberedMatch_some t out len hm
  subst hout
  simp only [List.mem_append] at hc
  rcases hc with (h | h) | h
  · exact (show ∀ x ∈ br, x ≠ '\n' by decide) c h
  · exact ht c (by rw [hteq]; simp [h])
  · exact (show ∀ x ∈ ['.', ' '], x ≠ '\n' by decide) c h

/-- C10: `formattedText` is a total function of the text, and its result holds
no newline: the first replacement puts `<br />` in the place of every newline
and keeps every other character, and the bold, bullet and numbered-list
replacements bring no newline in. -/
theorem formattedText_no_newline (raw : String) :
    (∃ out : String, formattedText raw = out) ∧
    (∀ c ∈ (formattedText raw).data, c ≠ '\n') ∧
    replaceAll newlineMatch raw.data =
      raw.data.flatMap (fun c => if c = '\n' then br else [c]) := by
  refine ⟨⟨_, rfl⟩, ?_, replaceAll_newlineMatch raw.data⟩
  show ∀ c ∈ formatChars raw.data, c ≠ '\n'
  unfold formatChars
  exact replaceAll_numberedMatch_no_newline _
    (replaceAll_bulletMatch_no_newline _
      (replaceAll_boldMatch_no_newline _ (replaceAllFrom_newlineMatch 0 raw.data)))

/-! ## Bullets -/

theorem bulletsSpaced_append (a b : List Char) (ha : ∀ c ∈ a, c ≠ '•')
    (hb : bulletsSpaced b = true) : bulletsSpaced (a ++ b) = true := by
  induction a with
  | nil => simpa using hb
  | cons c a ih =>
    have hc : c ≠ '•' := ha c (List.mem_cons_self c a)
    have := ih (fun d hd => ha d (List.mem_cons_of_mem c hd))
    simp [bulletsSpaced, hc, this]

theorem bulletsSpaced_tail (c : Char) (l : List Char) (h : bulletsSpaced (c :: l) = true) :
    bulletsSpaced l = true := by
  simp [bulletsSpaced] at h
  exact h.2

/-- The bullet replacement puts a blank behind each bullet and keeps every
other character. -/
theorem replaceAll_bulletMatch (l : List Char) :
    replaceAll bulletMatch l = l.flatMap (fun c => if c = '•' then ['•', ' '] else [c]) := by
  unfold replaceAll
  induction l with
  | nil => rfl
  | cons d rest ih =>
    by_cases hd : d = '•'
    · have hm : bulletMatch (d :: rest) = some (['•', ' '], 1) := by simp [bulletMatch, hd]
      rw [replaceAllFrom_some _ d rest _ 1 hm]
      simp [ih, hd]
    · rw [replaceAllFrom_none _ d rest (bulletMatch_none d rest hd)]
      simp [ih, hd]

/-- After the bullet replacement every bullet has a blank behind it. -/
theorem bulletsSpaced_bulletMatch (l : List Char) :
    bulletsSpaced (replaceAll bulletMatch l) = true := by
  rw [replaceAll_bulletMatch]
  induction l with
  | nil => rfl
  | cons d rest ih =>
    by_cases hd : d = '•'
    · simp [List.flatMap_cons, hd, bulletsSpaced, ih]
    · simp [List.flatMap_cons, hd, bulletsSpaced, ih]

/-- The numbered-list replacement keeps the blank behind each bullet. -/
theorem bulletsSpaced_numberedMatch (k : Nat) (l : List Char) (hl : bulletsSpaced l = true) :
    bulletsSpaced (replaceAllFrom numberedMatch k l) = true := by
  induction l generalizing k with
  | nil => simp [replaceAllFrom_nil, bulletsSpaced]
  | cons d rest ih =>
    have hrest := bulletsSpaced_tail d rest hl
    cases k with
    | succ k => simpa [replaceAllFrom_succ] using ih k hrest
    | zero =>
      cases hmd : numberedMatch (d :: rest) with
      | some r =>
        obtain ⟨out, len⟩ := r
        rw [replaceAllFrom_some _ d rest out len hmd]
        obtain ⟨ds, t, -, -, hds, hout, -⟩ := numberedMatch_some _ out len hmd
        apply bulletsSpaced_append _ _ _ (ih _ hrest)
        subst hout
        intro c hc
        simp only [List.mem_append] at hc
        rcases hc with (h | h) | h
        · exact (show ∀ x ∈ br, x ≠ '•' by decide) c h
        · rintro rfl
          exact absurd (hds _ h) (by decide)
        · exact (show ∀ x ∈ ['.', ' '], x ≠ '•' by decide) c h
      | none =>
        rw [replaceAllFrom_none _ d rest hmd]
        by_cases hd : d = '•'
        · subst hd
          cases rest with
          | nil => simp [bulletsSpaced] at hl
          | cons e r =>
            have he : e = ' ' := by
              simp [bulletsSpaced] at hl
              exact hl.1
            subst he
            have hsp : numberedMatch (' ' :: r) = none :=
              numberedMatch_none ' ' r (by decide)
            have h1 := ih 0 hrest
            rw [replaceAllFrom_none _ ' ' r hsp] at h1 ⊢
            simp [bulletsSpaced] at h1 ⊢
            exact h1
        · simp [bulletsSpaced, hd, ih 0 hrest]

theorem bulletsSpaced_getElem (l : List Char) (hl : bulletsSpaced l = true) (i : Nat)
    (h : l[i]? = some '•') : l[i + 1]? = some ' ' := by
  induction l generalizing i with
  | nil => simp at h
  | cons c rest ih =>
    have hrest := bulletsSpaced_tail c rest hl
    cases i with
    | zero =>
      simp at h
      subst h
      cases rest with
      | nil => simp [bulletsSpaced] at hl
      | cons e r =>
        simp [bulletsSpaced] at hl
        simp [hl.1]
    | succ i =>
      rw [List.getElem?_cons_succ] at h ⊢
      exact ih hrest i h

/-- C9, as the claim states it, fails: the bullet of `• item` has one blank
behind it, and in `formattedText` it has two. -/
theorem formattedText_bullet_two_blanks :
    "• item".data[1]? = some ' ' ∧ "• item".data[2]? = some 'i' ∧
    formattedText "• item" = "•  item" ∧
    (formattedText "• item").data[1]? = some ' ' ∧
    (formattedText "• item").data[2]? = some ' ' := by
  decide

/-- C9, amended: in `formattedText raw` every bullet glyph is directly followed
by a blank.  The bullet replacement puts one blank behind each bullet whatever
follows it, so a bullet with one blank behind it in the text has two in the
result, and a bullet with none gains exactly one. -/
theorem formattedText_bullet_blank (raw : String) (i : Nat)
    (h : (formattedText raw).data[i]? = some '•') :
    (formattedText raw).data[i + 1]? = some ' ' ∧
    (∀ l : List Char, replaceAll bulletMatch l =
      l.flatMap (fun c => if c = '•' then ['•', ' '] else [c])) ∧
    formattedText "• item" = "•  item" ∧
    formattedText "•item" = "• item" := by
  refine ⟨?_, replaceAll_bulletMatch, by decide, by decide⟩
  apply bulletsSpaced_getElem _ _ i h
  show bulletsSpaced (formatChars raw.data) = true
  unfold formatChars
  exact bulletsSpaced_numberedMatch 0 _ (bulletsSpaced_bulletMatch _)

theorem formattedText_bullet_blank_witness :
    (formattedText "•item").data[0]? = some '•' ∧
    (formattedText "•item").data[0 + 1]? = some ' ' :=
  ⟨by decide, (formattedText_bullet_blank "•item" 0 (by decide)).1⟩

/-! ## A line, a bold span and a numbered item -/

theorem replaceAllFrom_id (m : Matcher) (a : List Char)
    (h : ∀ c ∈ a, ∀ t, m (c :: t) = none) : replaceAllFrom m 0 a = a := by
  have := replaceAllFrom_copy m a [] h
  simpa [replaceAllFrom_nil] using this

theorem isDigit_ne (c : Char) (h : c.isDigit = true) :
    c ≠ '\n' ∧ c ≠ '*' ∧ c ≠ '•' := by
  refine ⟨?_, ?_, ?_⟩ <;> (rintro rfl; revert h; decide)

theorem isLineTerminator_ne (c : Char) (h : isLineTerminator c = false) : c ≠ '\n' := by
  rintro rfl
  revert h
  decide

/-- A newline at the start of the text is replaced by `<br />`. -/
theorem replaceAllFrom_newline_match (t : List Char) :
    replaceAllFrom newlineMatch 0 ('\n' :: t) = br ++ replaceAllFrom newlineMatch 0 t := by
  have h := replaceAllFrom_match newlineMatch '\n' [] t br (by simp [newlineMatch])
  simpa using h

/-- A span `**X**` at the start of the text, `X` without `*` and without line
terminator, is replaced by `<strong>X</strong>`. -/
theorem replaceAllFrom_bold_match (X t : List Char)
    (hX : ∀ c ∈ X, isLineTerminator c = false ∧ c ≠ '*') :
    replaceAllFrom boldMatch 0 ('*' :: '*' :: (X ++ '*' :: '*' :: t)) =
      strongOpen ++ X ++ strongClose ++ replaceAllFrom boldMatch 0 t := by
  have hm : boldMatch ('*' :: (('*' :: (X ++ ['*', '*'])) ++ t)) =
      some (strongOpen ++ X ++ strongClose, ('*' :: (X ++ ['*', '*'])).length + 1) := by
    have hl := lazyGroup_append X t hX
    simp [boldMatch, hl]
  have h := replaceAllFrom_match boldMatch '*' ('*' :: (X ++ ['*', '*'])) t _ hm
  simpa using h

/-- A run of digits and a dot at the start of the text are replaced by
`<br />`, the digits, the dot and a blank. -/
theorem replaceAllFrom_numbered_match (D t : List Char) (hne : D ≠ [])
    (hD : ∀ c ∈ D, c.isDigit = true) :
    replaceAllFrom numberedMatch 0 (D ++ '.' :: t) =
      br ++ D ++ ['.', ' '] ++ replaceAllFrom numberedMatch 0 t := by
  have hm := numberedMatch_append D t hne hD
  cases D with
  | nil => exact absurd rfl hne
  | cons d ds =>
    have hm2 : numberedMatch (d :: ((ds ++ ['.']) ++ t)) =
        some (br ++ (d :: ds) ++ ['.', ' '], (ds ++ ['.']).length + 1) := by
      simpa using hm
    have h := replaceAllFrom_match numberedMatch d (ds ++ ['.']) t _ hm2
    simpa using h

/-- The result of the four replacements on a line `A`, a newline, a bold span
`X`, a blank and a numbered item `D. B`. -/
theorem formatChars_line_bold_numbered (A X B D : List Char)
    (hA : ∀ c ∈ A, c ≠ '\n' ∧ c ≠ '*' ∧ c ≠ '•' ∧ c.isDigit = false)
    (hX : ∀ c ∈ X, isLineTerminator c = false ∧ c ≠ '*' ∧ c ≠ '•' ∧ c.isDigit = false)
    (hB : ∀ c ∈ B, c ≠ '\n' ∧ c ≠ '*' ∧ c ≠ '•' ∧ c.isDigit = false)
    (hne : D ≠ []) (hD : ∀ c ∈ D, c.isDigit = true) :
    formatChars (A ++ '\n' :: '*' :: '*' :: (X ++ '*' :: '*' :: ' ' :: (D ++ '.' :: ' ' :: B))) =
      A ++ (br ++ (strongOpen ++ (X ++ (strongClose ++
        ' ' :: (br ++ (D ++ '.' :: ' ' :: ' ' :: B)))))) := by
  have hXn : ∀ c ∈ X, c ≠ '\n' := fun c hc => isLineTerminator_ne c (hX c hc).1
  -- the newline replacement
  have h1 : replaceAll newlineMatch
      (A ++ '\n' :: '*' :: '*' :: (X ++ '*' :: '*' :: ' ' :: (D ++ '.' :: ' ' :: B))) =
      (A ++ br) ++ '*' :: '*' :: (X ++ '*' :: '*' :: (' ' :: (D ++ '.' :: ' ' :: B))) := by
    unfold replaceAll
    rw [replaceAllFrom_copy newlineMatch A _
      (fun c hc t => newlineMatch_none c t (hA c hc).1), replaceAllFrom_newline_match,
      replaceAllFrom_id]
    · simp
    · intro c hc t
      apply newlineMatch_none
      simp only [List.mem_cons, List.mem_append] at hc
      rcases hc with h | h | h | h | h | h | h | h | h | h
      · rw [h]; decide
      · rw [h]; decide
      · exact hXn c h
      · rw [h]; decide
      · rw [h]; decide
      · rw [h]; decide
      · exact (isDigit_ne c (hD c h)).1
      · rw [h]; decide
      · rw [h]; decide
      · exact (hB c h).1
  -- the bold replacement
  have h2 : replaceAll boldMatch
      ((A ++ br) ++ '*' :: '*' :: (X ++ '*' :: '*' :: (' ' :: (D ++ '.' :: ' ' :: B)))) =
      (A ++ (br ++ (strongOpen ++ (X ++ (strongClose ++ [' '])))))
        ++ (D ++ '.' :: (' ' :: B)) := by
    unfold replaceAll
    rw [replaceAllFrom_copy boldMatch (A ++ br), replaceAllFrom_bold_match X _
      (fun c hc => ⟨(hX c hc).1, (hX c hc).2.1⟩), replaceAllFrom_id]
    · simp
    · intro c hc t
      apply boldMatch_none
      simp only [List.mem_cons, List.mem_append] at hc
      rcases hc with h | h | h | h | h
      · rw [h]; decide
      · exact (isDigit_ne c (hD c h)).2.1
      · rw [h]; decide
      · rw [h]; decide
      · exact (hB c h).2.1
    · intro c hc t
      apply boldMatch_none
      rcases List.mem_append.1 hc with h | h
      · exact (hA c h).2.1
      · exact (show ∀ x ∈ br, x ≠ '*' by decide) c h
  -- the bullet replacement
  have h3 : replaceAll bulletMatch
      ((A ++ (br ++ (strongOpen ++ (X ++ (strongClose ++ [' '])))))
        ++ (D ++ '.' :: (' ' :: B))) =
      (A ++ (br ++ (strongOpen ++ (X ++ (strongClose ++ [' '])))))
        ++ (D ++ '.' :: (' ' :: B)) := by
    unfold replaceAll
    apply replaceAllFrom_id
    intro c hc t
    apply bulletMatch_none
    simp only [List.mem_append, List.mem_cons, List.not_mem_nil, or_false] at hc
    rcases hc with (h | h | h | h | h | h) | h | h | h | h
    · exact (hA c h).2.2.1
    · exact (show ∀ x ∈ br, x ≠ '•' by decide) c h
    · exact (show ∀ x ∈ strongOpen, x ≠ '•' by decide) c h
    · exact (hX c h).2.2.1
    · exact (show ∀ x ∈ strongClose, x ≠ '•' by decide) c h
    · rw [h]; decide
    · exact (isDigit_ne c (hD c h)).2.2
    · rw [h]; decide
    · rw [h]; decide
    · exact (hB c h).2.2.1
  -- the numbered-list replacement
  have h4 : replaceAll numberedMatch
      ((A ++ (br ++ (strongOpen ++ (X ++ (strongClose ++ [' '])))))
        ++ (D ++ '.' :: (' ' :: B))) =
      A ++ (br ++ (strongOpen ++ (X ++ (strongClose ++
        ' ' :: (br ++ (D ++ '.' :: ' ' :: ' ' :: B)))))) := by
    unfold replaceAll
    rw [replaceAllFrom_copy numberedMatch, replaceAllFrom_numbered_match D _ hne hD,
      replaceAllFrom_id]
    · simp
    · intro c hc t
      apply numberedMatch_none
      rcases List.mem_cons.1 hc with h | h
      · rw [h]; decide
      · exact (hB c h).2.2.2
    · intro c hc t
      apply numberedMatch_none
      simp only [List.mem_append, List.mem_cons, List.not_mem_nil, or_false] at hc
      rcases hc with h | h | h | h | h | h
      · exact (hA c h).2.2.2
      · exact (show ∀ x ∈ br, x.isDigit = false by decide) c h
      · exact (show ∀ x ∈ strongOpen, x.isDigit = false by decide) c h
      · exact (hX c h).2.2.2
      · exact (show ∀ x ∈ strongClose, x.isDigit = false by decide) c h
      · rw [h]; decide
  unfold formatChars
  rw [h1, h2, h3, h4]

/-- C8, as the claim states it, fails: the text `a`, carriage return, `b` holds
no newline, no `*`, no `•` and no digit, yet as the span `X` it is not made
bold, since `.` does not accept a carriage return. -/
theorem formattedText_bold_carriage_return :
    (∀ c ∈ "a\rb".data, c ≠ '\n' ∧ c ≠ '*' ∧ c ≠ '•' ∧ c.isDigit = false) ∧
    formattedText ("" ++ "\n**" ++ "a\rb" ++ "** " ++ "1" ++ ". " ++ "") =
      "<br />**a\rb** <br />1.  " ∧
    ¬ (("<strong>" ++ "a\rb" ++ "</strong>").data <:+:
      (formattedText ("" ++ "\n**" ++ "a\rb" ++ "** " ++ "1" ++ ". " ++ "")).data) := by
  decide

/-- C8, amended: for texts `A`, `X`, `B` without newline, `*`, `•` and ASCII
digit, where `X` moreover holds no other line terminator (carriage return,
U+2028, U+2029), and a non-empty text `D` of ASCII digits, `formattedText` of
`A`, newline, `**X**`, blank, `D`, dot, blank, `B` is `A<br /><strong>X</strong>`,
blank, `<br />D.`, two blanks, `B`; so it contains `A` directly followed by
`<br />`, contains `<strong>X</strong>`, and contains `<br />` directly followed
by `D.`. -/
theorem formattedText_line_bold_numbered (A X B D : String)
    (hA : ∀ c ∈ A.data, c ≠ '\n' ∧ c ≠ '*' ∧ c ≠ '•' ∧ c.isDigit = false)
    (hX : ∀ c ∈ X.data, isLineTerminator c = false ∧ c ≠ '*' ∧ c ≠ '•' ∧ c.isDigit = false)
    (hB : ∀ c ∈ B.data, c ≠ '\n' ∧ c ≠ '*' ∧ c ≠ '•' ∧ c.isDigit = false)
    (hne : D ≠ "") (hD : ∀ c ∈ D.data, c.isDigit = true) :
    formattedText (A ++ "\n**" ++ X ++ "** " ++ D ++ ". " ++ B) =
      A ++ "<br /><strong>" ++ X ++ "</strong> <br />" ++ D ++ ".  " ++ B ∧
    (A ++ "<br />").data <:+:
      (formattedText (A ++ "\n**" ++ X ++ "** " ++ D ++ ". " ++ B)).data ∧
    ("<strong>" ++ X ++ "</strong>").data <:+:
      (formattedText (A ++ "\n**" ++ X ++ "** " ++ D ++ ". " ++ B)).data ∧
    ("<br />" ++ D ++ ".").data <:+:
      (formattedText (A ++ "\n**" ++ X ++ "** " ++ D ++ ". " ++ B)).data := by
  have hne2 : D.data ≠ [] := by
    intro h
    apply hne
    cases D
    simp_all
  have hshape := formatChars_line_bold_numbered A.data X.data B.data D.data hA hX hB hne2 hD
  have hin : (A ++ "\n**" ++ X ++ "** " ++ D ++ ". " ++ B).data =
      A.data ++ '\n' :: '*' :: '*' ::
        (X.data ++ '*' :: '*' :: ' ' :: (D.data ++ '.' :: ' ' :: B.data)) := by
    simp [String.data_append]
  have hout : (formattedText (A ++ "\n**" ++ X ++ "** " ++ D ++ ". " ++ B)).data =
      A.data ++ (br ++ (strongOpen ++ (X.data ++ (strongClose ++
        ' ' :: (br ++ (D.data ++ '.' :: ' ' :: ' ' :: B.data)))))) := by
    show formatChars _ = _
    rw [hin, hshape]
  refine ⟨?_, ?_, ?_, ?_⟩
  · apply String.ext
    rw [hout]
    simp [String.data_append, br, strongOpen, strongClose]
  · rw [hout]
    refine ⟨[], strongOpen ++ (X.data ++ (strongClose ++
        ' ' :: (br ++ (D.data ++ '.' :: ' ' :: ' ' :: B.data)))), ?_⟩
    simp [String.data_append, br]
  · rw [hout]
    refine ⟨A.data ++ br, ' ' :: (br ++ (D.data ++ '.' :: ' ' :: ' ' :: B.data)), ?_⟩
    simp [String.data_append, strongOpen, strongClose]
  · rw [hout]
    refine ⟨A.data ++ (br ++ (strongOpen ++ (X.data ++ (strongClose ++ [' '])))),
      ' ' :: ' ' :: B.data, ?_⟩
    simp [String.data_append, br]

theorem formattedText_line_bold_numbered_witness :
    (∀ c ∈ "Hello".data, c ≠ '\n' ∧ c ≠ '*' ∧ c ≠ '•' ∧ c.isDigit = false) ∧
    (∀ c ∈ "World".data, isLineTerminator c = false ∧ c ≠ '*' ∧ c ≠ '•' ∧ c.isDigit = false) ∧
    (∀ c ∈ "first".data, c ≠ '\n' ∧ c ≠ '*' ∧ c ≠ '•' ∧ c.isDigit = false) ∧
    "1" ≠ "" ∧ (∀ c ∈ "1".data, c.isDigit = true) ∧
    "Hello" ++ "\n**" ++ "World" ++ "** " ++ "1" ++ ". " ++ "first" =
      "Hello\n**World** 1. first" ∧
    formattedText ("Hello" ++ "\n**" ++ "World" ++ "** " ++ "1" ++ ". " ++ "first") =
      "Hello" ++ "<br /><strong>" ++ "World" ++ "</strong> <br />" ++ "1" ++ ".  " ++ "first" :=
  ⟨by decide, by decide, by decide, by decide, by decide, by decide,
   (formattedText_line_bold_numbered "Hello" "World" "first" "1"
      (by decide) (by decide) (by decide) (by decide) (by decide)).1⟩

/-! ## Blank drafts -/

/-- The trimmed text is empty exactly when every character of the text is white
space or a line terminator (in particular when the text is empty). -/
theorem trim_eq_empty_iff (t : String) :
    trim t = "" ↔ ∀ c ∈ t.data, isTrimChar c = true := by
  have hdata : trim t = "" ↔ trimChars t.data = [] := by
    constructor
    · intro h
      have := congrArg String.data h
      simpa [trim] using this
    · intro h
      apply String.ext
      simpa [trim] using h
  rw [hdata]
  unfold trimChars
  rw [List.reverse_eq_nil_iff, List.dropWhile_eq_nil_iff]
  constructor
  · intro h
    have hnil : t.data.dropWhile isTrimChar = [] := by
      cases hd : t.data.dropWhile isTrimChar with
      | nil => rfl
      | cons d r =>
        have h1 : isTrimChar d = true := h d (by simp [hd])
        have h2 := List.head_dropWhile_not isTrimChar t.data (by simp [hd])
        simp [hd, h1] at h2
    exact List.dropWhile_eq_nil_iff.1 hnil
  · intro h c hc
    have hc2 : c ∈ t.data.dropWhile isTrimChar := by simpa using hc
    exact h c ((List.dropWhile_sublist isTrimChar).subset hc2)

/-! ## Decimal numbers -/

/-- The numbered-list replacement acts on every run of digits followed by a dot,
a decimal number included: `3.14` becomes `<br />3. 14`. -/
theorem formattedText_decimal : formattedText "3.14" = "<br />3. 14" := by
  decide

end GeminiChatbot
